import Mathlib

/-!
Verification of the mcp-neo4j-cypher tool server (demo-mcp-neo4j).

The repository ships the bootstrap (`production_server.py`) and two manual
test scripts; the core tool-server components (Connection Manager, Query
Executor, Schema Sampler, Response Shaper, Tool Registry) are imported from
the `mcp_neo4j_cypher` package whose code is not part of the repository
files.  Definitions for those components are therefore modelled from the
spec (each such definition's doc comment says so), while the configuration
and startup logic is embedded directly from `production_server.py`.

Text is modelled as `List Char`; strings from the source appear through
`.data` of string literals so that every definition is executable.
-/

/-- Names and rendered text are lists of characters. -/
abbrev CName : Type := List Char

/-- Shorthand turning a string literal into a character-list name. -/
def nm (s : String) : CName := s.data

/-- Strip an expected leading segment from a list of characters: `some` of the
remainder when the first argument is a leading segment of the second, `none`
otherwise.  Used by the dispatch model to remove the namespace decoration. -/
def stripPre : List Char → List Char → Option (List Char)
  | [], s => some s
  | _ :: _, [] => none
  | p :: ps, c :: cs => if p = c then stripPre ps cs else none

theorem stripPre_self_append (p r : List Char) : stripPre p (p ++ r) = some r := by
  induction p with
  | nil => rfl
  | cons c cs ih => simp [stripPre, ih]

theorem stripPre_eq_some (p : List Char) : ∀ s r, stripPre p s = some r → s = p ++ r := by
  induction p with
  | nil => intro s r h; simp [stripPre] at h; simp [h]
  | cons c cs ih =>
    intro s r h
    cases s with
    | nil => simp [stripPre] at h
    | cons d ds =>
      simp only [stripPre] at h
      by_cases hc : c = d
      · simp [hc] at h
        have := ih ds r h
        simp [hc, this]
      · simp [hc] at h

theorem stripPre_head (p s r : List Char) (hp : p ≠ []) (h : stripPre p s = some r) :
    p.head? = s.head? := by
  cases p with
  | nil => exact absurd rfl hp
  | cons c cs =>
    cases s with
    | nil => simp [stripPre] at h
    | cons d ds =>
      simp only [stripPre] at h
      by_cases hc : c = d
      · simp [hc]
      · simp [hc] at h

/-- Decimal digit character for a value below ten. -/
def decChar (d : Nat) : Char := Char.ofNat (48 + d)

/-- Fuel-driven decimal rendering helper (structural recursion so that all
uses compute inside the kernel). -/
def natCharsGo : Nat → Nat → List Char
  | 0, _ => []
  | fuel + 1, n => if n < 10 then [decChar n] else natCharsGo fuel (n / 10) ++ [decChar (n % 10)]

/-- Decimal rendering of a natural number. -/
def natChars (n : Nat) : List Char := natCharsGo (n + 1) n

theorem natCharsGo_irrel : ∀ f₁ f₂ n, n < f₁ → n < f₂ → natCharsGo f₁ n = natCharsGo f₂ n := by
  intro f₁
  induction f₁ with
  | zero => intro f₂ n h; omega
  | succ f ih =>
    intro f₂ n h₁ h₂
    cases f₂ with
    | zero => omega
    | succ f₂' =>
      by_cases hn : n < 10
      · simp [natCharsGo, hn]
      · have hn0 : 0 < n := by omega
        have hdiv : n / 10 < n := Nat.div_lt_self hn0 (by omega)
        simp only [natCharsGo, hn, if_false]
        rw [ih f₂' (n / 10) (by omega) (by omega)]

theorem natChars_eq (n : Nat) :
    natChars n = if n < 10 then [decChar n] else natChars (n / 10) ++ [decChar (n % 10)] := by
  show natCharsGo (n + 1) n = _
  by_cases hn : n < 10
  · simp [natCharsGo, hn]
  · have hn0 : 0 < n := by omega
    simp only [natCharsGo, hn, if_false]
    show natCharsGo n (n / 10) ++ [decChar (n % 10)] =
      natCharsGo (n / 10 + 1) (n / 10) ++ [decChar (n % 10)]
    rw [natCharsGo_irrel n (n / 10 + 1) (n / 10) (by omega) (by omega)]

/-- Number of decimal digits in the rendering of `n`. -/
def digLen (n : Nat) : Nat := (natChars n).length

theorem digLen_eq (n : Nat) : digLen n = if n < 10 then 1 else digLen (n / 10) + 1 := by
  unfold digLen
  rw [natChars_eq n]
  by_cases hn : n < 10
  · simp [hn]
  · simp [hn]

theorem digLen_pos (n : Nat) : 0 < digLen n := by
  rw [digLen_eq]
  by_cases hn : n < 10 <;> simp [hn]

theorem digLen_mono : ∀ m n, n ≤ m → digLen n ≤ digLen m := by
  intro m
  induction m using Nat.strong_induction_on with
  | _ m ih =>
    intro n hnm
    by_cases hm : m < 10
    · have hn : n < 10 := by omega
      rw [digLen_eq n, digLen_eq m]
      simp [hn, hm]
    · rw [digLen_eq m]
      simp only [hm, if_false]
      by_cases hn : n < 10
      · rw [digLen_eq n]
        simp only [hn, if_true]
        have := digLen_pos (m / 10)
        omega
      · rw [digLen_eq n]
        simp only [hn, if_false]
        have hmd : m / 10 < m := Nat.div_lt_self (by omega) (by omega)
        have := ih (m / 10) hmd (n / 10) (Nat.div_le_div_right hnm)
        omega

theorem digLen_succ_le (n : Nat) : digLen (n + 1) ≤ digLen n + 1 := by
  induction n using Nat.strong_induction_on with
  | _ n ih =>
    by_cases h : n + 1 < 10
    · rw [digLen_eq (n + 1)]
      have := digLen_pos n
      simp only [h, if_true]
      omega
    · rw [digLen_eq (n + 1)]
      simp only [h, if_false]
      by_cases hn : n < 10
      · -- here n = 9, so n + 1 = 10
        have h9 : n = 9 := by omega
        subst h9
        decide
      · rw [digLen_eq n]
        simp only [hn, if_false]
        have hstep : (n + 1) / 10 ≤ n / 10 + 1 := by omega
        have h₁ : digLen ((n + 1) / 10) ≤ digLen (n / 10 + 1) :=
          digLen_mono _ _ hstep
        have h₂ : digLen (n / 10 + 1) ≤ digLen (n / 10) + 1 :=
          ih (n / 10) (Nat.div_lt_self (by omega) (by omega))
        omega

/-! ## Tool Registry and Query Executor

The `mcp_neo4j_cypher.server` module is not part of the repository files, so
the registry and executor are modelled from the spec (sections 4.2, 4.5):
three tools (schema, read, write), the write tool omitted under read-only
configuration, namespace decoration of tool names with a separator, dispatch
by removing the configured decoration, and a read-only gate in the executor
that fails before any query reaches the backend. -/

/-- Internal handler identifiers of the three tools. -/
inductive ToolId
  | schemaTool
  | readTool
  | writeTool
deriving DecidableEq

/-- Transaction access mode of a query. -/
inductive Mode
  | read
  | write
deriving DecidableEq

/-- Modelled from the spec: the internal handler table of the Tool Registry.
Exactly three tools (schema, read, write); when the configuration marks the
server read-only the write tool is omitted entirely. -/
def handlerTable (readOnly : Bool) : List (CName × ToolId) :=
  (nm "get_neo4j_schema", ToolId.schemaTool) ::
  (nm "read_neo4j_cypher", ToolId.readTool) ::
  (if readOnly then [] else [(nm "write_neo4j_cypher", ToolId.writeTool)])

/-- Modelled from the spec: the namespace decoration put in front of every
tool name — the namespace string followed by a separator when the namespace
is non-empty, nothing when it is empty. -/
def nsPre (ns : CName) : CName := if ns = [] then [] else ns ++ ['-']

/-- A registered tool descriptor: decorated name plus handler identifier. -/
structure ToolDesc where
  name : CName
  tool : ToolId
deriving DecidableEq

/-- Modelled from the spec: `register_tools(namespace)` — every internal
handler becomes a descriptor whose name carries the namespace decoration. -/
def registerTools (readOnly : Bool) (ns : CName) : List ToolDesc :=
  (handlerTable readOnly).map (fun p => ⟨nsPre ns ++ p.1, p.2⟩)

/-- Association lookup over the handler table. -/
def lookupTool (n : CName) : List (CName × ToolId) → Option ToolId
  | [] => none
  | (k, v) :: t => if n = k then some v else lookupTool n t

/-- Dispatch failure: the name resolves to no registered tool. -/
inductive DispatchErr
  | unknownTool
deriving DecidableEq

/-- Modelled from the spec: dispatch removes the configured namespace
decoration from the incoming name and matches the remainder against the
internal handler names; any name that does not match after stripping fails
with `UnknownToolError`. -/
def dispatch (readOnly : Bool) (ns : CName) (name : CName) : Except DispatchErr ToolId :=
  match stripPre (nsPre ns) name with
  | none => Except.error DispatchErr.unknownTool
  | some base =>
    match lookupTool base (handlerTable readOnly) with
    | none => Except.error DispatchErr.unknownTool
    | some t => Except.ok t

/-- Primitive values of query parameters and result cells. -/
inductive PVal
  | int (n : Int)
  | str (s : CName)
  | bool (b : Bool)
  | null
deriving DecidableEq

/-- A result row: a mapping from output column name to value. -/
abbrev Row : Type := List (CName × PVal)

/-- A result payload: an ordered sequence of rows. -/
abbrev Payload : Type := List Row

/-- Executor failures (spec section 4.2). -/
inductive ExecErr
  | permissionError
  | timeoutError
  | queryError
  | connectionError
  | serializationError
deriving DecidableEq

/-- The backend: what a query sent over the connection handle evaluates to. -/
abbrev Backend : Type := CName → List (CName × PVal) → Mode → Except ExecErr Payload

/-- Modelled from the spec: `execute(query_text, parameters, mode)`.  Next to
the result it returns the transcript of queries actually sent to the backend
with the transaction mode each was opened in, so that "no query is ever sent
for a disallowed mode" is visible in the model.  Under a read-only
configuration a write-mode call fails with `PermissionError` and the
transcript stays empty. -/
def execute (readOnly : Bool) (bk : Backend) (q : CName) (ps : List (CName × PVal))
    (m : Mode) : Except ExecErr Payload × List (CName × Mode) :=
  if readOnly && (m == Mode.write) then (Except.error ExecErr.permissionError, [])
  else (bk q ps m, [(q, m)])

theorem lookupTool_mem {n : CName} {t : ToolId} :
    ∀ l, lookupTool n l = some t → (n, t) ∈ l := by
  intro l
  induction l with
  | nil => intro h; simp [lookupTool] at h
  | cons p ps ih =>
    intro h
    obtain ⟨k, v⟩ := p
    simp only [lookupTool] at h
    by_cases hk : n = k
    · simp [hk] at h
      simp [hk, h]
    · simp [hk] at h
      exact List.mem_cons_of_mem _ (ih h)

theorem mem_lookupTool (ro : Bool) {k : CName} {t : ToolId}
    (h : (k, t) ∈ handlerTable ro) : lookupTool k (handlerTable ro) = some t := by
  cases ro with
  | false =>
    simp only [handlerTable, if_false, Bool.false_eq_true, List.mem_cons, List.mem_singleton,
      Prod.mk.injEq, List.not_mem_nil, or_false] at h
    rcases h with ⟨rfl, rfl⟩ | ⟨rfl, rfl⟩ | ⟨rfl, rfl⟩ <;> decide
  | true =>
    simp only [handlerTable, if_true, List.mem_cons, List.mem_singleton,
      Prod.mk.injEq, List.not_mem_nil, or_false] at h
    rcases h with ⟨rfl, rfl⟩ | ⟨rfl, rfl⟩ <;> decide

theorem handlerTable_hyphen_free : ∀ ro : Bool, ∀ p ∈ handlerTable ro, ('-' : Char) ∉ p.1 := by
  intro ro
  cases ro <;> decide

/-- C1: for every configuration with the read-only flag set to true, the
write tool is absent from the registered tool list (no registered descriptor
carries the write handler), and every `execute` call with write mode fails
with `PermissionError` while the backend transcript stays empty, so no
write-mode transaction is ever opened. -/
theorem readonly_write_guard (ns : CName) (bk : Backend) (q : CName)
    (ps : List (CName × PVal)) :
    (∀ d ∈ registerTools true ns, d.tool ≠ ToolId.writeTool)
    ∧ execute true bk q ps Mode.write = (Except.error ExecErr.permissionError, []) := by
  constructor
  · intro d hd
    obtain ⟨p, hp, rfl⟩ := List.mem_map.mp hd
    simp only [handlerTable, if_true, List.mem_cons, List.not_mem_nil, or_false] at hp
    rcases hp with rfl | rfl <;> simp
  · rfl

/-- Closed instance of C1: under a read-only configuration with empty
namespace, a concrete write-mode call is refused with an empty transcript and
the write descriptor is not registered. -/
theorem readonly_write_guard_witness :
    execute true (fun _ _ _ => Except.ok []) (nm "CREATE (n:X)") [] Mode.write
      = (Except.error ExecErr.permissionError, [])
    ∧ (⟨nm "write_neo4j_cypher", ToolId.writeTool⟩ : ToolDesc) ∉ registerTools true [] := by
  have h := readonly_write_guard [] (fun _ _ _ => Except.ok []) (nm "CREATE (n:X)") []
  exact ⟨h.2, fun hmem => h.1 _ hmem rfl⟩

/-- C2: for every configured namespace (including the empty one), every tool
name produced by `registerTools` starts with the namespace decoration, and
dispatch succeeds on that exact decorated name; when the namespace is
non-empty, dispatch on each undecorated handler name fails with
`UnknownToolError`, as does dispatch on any name that matches no registered
tool. -/
theorem registry_namespacing (ro : Bool) (ns : CName) :
    (∀ d ∈ registerTools ro ns,
        nsPre ns <+: d.name ∧ dispatch ro ns d.name = Except.ok d.tool)
    ∧ (ns ≠ [] → ∀ p ∈ handlerTable ro,
        dispatch ro ns p.1 = Except.error DispatchErr.unknownTool)
    ∧ (∀ name : CName, (∀ d ∈ registerTools ro ns, d.name ≠ name) →
        dispatch ro ns name = Except.error DispatchErr.unknownTool) := by
  refine ⟨?_, ?_, ?_⟩
  · intro d hd
    obtain ⟨p, hp, rfl⟩ := List.mem_map.mp hd
    constructor
    · exact ⟨p.1, rfl⟩
    · show dispatch ro ns (nsPre ns ++ p.1) = Except.ok p.2
      have hstrip := stripPre_self_append (nsPre ns) p.1
      have hlook : lookupTool p.1 (handlerTable ro) = some p.2 := mem_lookupTool ro hp
      simp [dispatch, hstrip, hlook]
  · intro hns p hp
    have hpre : nsPre ns = ns ++ ['-'] := by simp [nsPre, hns]
    cases hstrip : stripPre (nsPre ns) p.1 with
    | none => simp [dispatch, hstrip]
    | some r =>
      exfalso
      have heq := stripPre_eq_some _ _ _ hstrip
      have hmem : ('-' : Char) ∈ p.1 := by
        rw [heq, hpre]
        simp
      exact handlerTable_hyphen_free ro p hp hmem
  · intro name hnone
    cases hstrip : stripPre (nsPre ns) name with
    | none => simp [dispatch, hstrip]
    | some base =>
      cases hlook : lookupTool base (handlerTable ro) with
      | none => simp [dispatch, hstrip, hlook]
      | some t =>
        exfalso
        have heq := stripPre_eq_some _ _ _ hstrip
        have hmem : (base, t) ∈ handlerTable ro := lookupTool_mem _ hlook
        have hd : (⟨nsPre ns ++ base, t⟩ : ToolDesc) ∈ registerTools ro ns :=
          List.mem_map.mpr ⟨(base, t), hmem, rfl⟩
        exact hnone _ hd heq.symm

/-- Closed instance of C2 at namespace "db": the decorated read tool name
dispatches, while the undecorated name and an unknown decorated name fail. -/
theorem registry_namespacing_witness :
    dispatch false (nm "db") (nm "db-read_neo4j_cypher") = Except.ok ToolId.readTool
    ∧ dispatch false (nm "db") (nm "read_neo4j_cypher")
        = Except.error DispatchErr.unknownTool
    ∧ dispatch false (nm "db") (nm "db-bogus") = Except.error DispatchErr.unknownTool := by
  have h := registry_namespacing false (nm "db")
  refine ⟨?_, ?_, ?_⟩
  · exact (h.1 ⟨nm "db-read_neo4j_cypher", ToolId.readTool⟩ (by decide)).2
  · exact h.2.1 (by decide) (nm "read_neo4j_cypher", ToolId.readTool) (by decide)
  · exact h.2.2 (nm "db-bogus") (by decide)

/-! ## Response Shaper

Modelled from the spec (section 4.4): canonical serialization of a row
sequence, a length-based token estimate, and whole-row truncation with an
explicit marker stating how many rows were omitted.  `render` is a total
function: an oversized payload is truncated, never an error. -/

/-- Comma-continuation of a serialized sequence. -/
def commaJoin (f : α → List Char) : List α → List Char
  | [] => []
  | x :: xs => ',' :: f x ++ commaJoin f xs

/-- Comma-separated serialization of a sequence. -/
def joinComma (f : α → List Char) : List α → List Char
  | [] => []
  | x :: xs => f x ++ commaJoin f xs

/-- Modelled from the spec: canonical serialization of one primitive value. -/
def serializeVal : PVal → List Char
  | PVal.int n => if n < 0 then '-' :: natChars n.natAbs else natChars n.toNat
  | PVal.str s => '"' :: s ++ ['"']
  | PVal.bool b => if b then nm "true" else nm "false"
  | PVal.null => nm "null"

/-- Modelled from the spec: canonical serialization of one row entry. -/
def serializeEntry (e : CName × PVal) : List Char :=
  '"' :: e.1 ++ '"' :: ':' :: serializeVal e.2

/-- Modelled from the spec: canonical serialization of one whole row. -/
def serializeRow (r : Row) : List Char :=
  '{' :: joinComma serializeEntry r ++ ['}']

/-- Modelled from the spec: canonical serialization of a result payload. -/
def serializeRows (p : Payload) : List Char :=
  '[' :: joinComma serializeRow p ++ [']']

/-- Modelled from the spec: approximate token estimate of rendered text via a
length heuristic (about four characters per token, rounded up). -/
def estTokens (s : List Char) : Nat := (s.length + 3) / 4

/-- Constant tail of the truncation marker. -/
def markerTail : List Char := (" rows omitted; output truncated)").data

/-- Constant head of the truncation marker. -/
def markerHead : List Char := (" ... (").data

/-- Modelled from the spec: the explicit truncation marker, stating how many
rows were omitted and that the result is truncated. -/
def markerStr (omitted : Nat) : List Char :=
  markerHead ++ natChars omitted ++ markerTail

/-- Truncated output keeping the first `k` whole rows plus the marker. -/
def truncOut (p : Payload) (k : Nat) : List Char :=
  serializeRows (p.take k) ++ markerStr (p.length - k)

/-- Search for the largest row count not exceeding the token limit. -/
def pickGo (p : Payload) (limit : Nat) : Nat → Nat
  | 0 => 0
  | k + 1 => if estTokens (truncOut p (k + 1)) ≤ limit then k + 1 else pickGo p limit k

/-- Modelled from the spec: how many whole rows the truncated output keeps —
the largest prefix (leaving at least one row omitted) whose serialization
plus marker fits the estimate, zero rows when even that does not fit. -/
def pickK (p : Payload) (limit : Nat) : Nat := pickGo p limit (p.length - 1)

/-- Modelled from the spec: `render(payload, token_limit)`.  With no limit,
or when the estimate of the full serialization fits the limit, the canonical
serialization is returned unchanged; otherwise whole rows are dropped and the
marker is appended.  Total: never an error for oversized input. -/
def render (p : Payload) : Option Nat → List Char
  | none => serializeRows p
  | some limit =>
    if estTokens (serializeRows p) ≤ limit then serializeRows p
    else truncOut p (pickK p limit)

/-- Marker detection: the rendered text ends with the marker's constant tail. -/
def hasMarker (s : List Char) : Bool := (stripPre markerTail.reverse s.reverse).isSome

theorem hasMarker_append_marker (x : List Char) (m : Nat) :
    hasMarker (x ++ markerStr m) = true := by
  unfold hasMarker markerStr
  rw [show (x ++ (markerHead ++ natChars m ++ markerTail)).reverse
      = markerTail.reverse ++ ((natChars m).reverse ++ (markerHead.reverse ++ x.reverse)) by
    simp [List.reverse_append]]
  rw [stripPre_self_append]
  rfl

theorem hasMarker_serializeRows (p : Payload) : hasMarker (serializeRows p) = false := by
  unfold hasMarker
  cases hstrip : stripPre markerTail.reverse (serializeRows p).reverse with
  | none => rfl
  | some r =>
    exfalso
    have hhead := stripPre_head _ _ _ (by decide) hstrip
    have h1 : markerTail.reverse.head? = some ')' := by decide
    have h2 : (serializeRows p).reverse.head? = some ']' := by
      show (('[' :: (joinComma serializeRow p ++ [']'])).reverse).head? = some ']'
      simp [List.reverse_cons, List.reverse_append]
    rw [h1, h2] at hhead
    exact absurd hhead (by decide)

theorem two_le_serializeRow (r : Row) : 2 ≤ (serializeRow r).length := by
  simp [serializeRow]

theorem commaJoin_append (f : α → List Char) (xs : List α) (x : α) :
    commaJoin f (xs ++ [x]) = commaJoin f xs ++ ',' :: f x := by
  induction xs with
  | nil => simp [commaJoin]
  | cons a t ih => simp [commaJoin, ih]

theorem joinComma_append (f : α → List Char) (xs : List α) (x : α) :
    joinComma f (xs ++ [x])
      = joinComma f xs ++ (if xs.isEmpty then f x else ',' :: f x) := by
  cases xs with
  | nil => simp [joinComma, commaJoin]
  | cons a t => simp [joinComma, commaJoin_append]

theorem length_serializeRows_take_succ (p : Payload) (k : Nat) (hk : k < p.length) :
    (serializeRows (p.take k)).length + 2 ≤ (serializeRows (p.take (k + 1))).length := by
  have htake : p.take (k + 1) = p.take k ++ [p[k]] := by
    rw [List.take_succ, List.getElem?_eq_getElem hk]
    rfl
  rw [htake]
  simp only [serializeRows, joinComma_append]
  have hrow := two_le_serializeRow p[k]
  by_cases he : (p.take k).isEmpty = true
  · simp [he]
    omega
  · simp [he]
    omega

theorem markerStr_length (m : Nat) :
    (markerStr m).length = markerHead.length + digLen m + markerTail.length := by
  simp [markerStr, digLen]
  omega

theorem truncOut_len_le_succ (p : Payload) (k : Nat) :
    (truncOut p k).length ≤ (truncOut p (k + 1)).length := by
  by_cases hk : k < p.length
  · have hrows := length_serializeRows_take_succ p k hk
    have hm : p.length - k = (p.length - (k + 1)) + 1 := by omega
    have hdig := digLen_succ_le (p.length - (k + 1))
    simp only [truncOut, List.length_append, markerStr_length]
    rw [hm]
    omega
  · have hle : p.length ≤ k := by omega
    have h1 : p.take k = p := List.take_of_length_le hle
    have h2 : p.take (k + 1) = p := List.take_of_length_le (by omega)
    have h3 : p.length - k = 0 := by omega
    have h4 : p.length - (k + 1) = 0 := by omega
    simp [truncOut, h1, h2, h3, h4]

theorem truncOut_len_mono (p : Payload) (k₁ k₂ : Nat) (h : k₁ ≤ k₂) :
    (truncOut p k₁).length ≤ (truncOut p k₂).length := by
  induction k₂ with
  | zero =>
    have h0 : k₁ = 0 := by omega
    subst h0
    exact le_refl _
  | succ k ih =>
    rcases Nat.lt_or_ge k₁ (k + 1) with hlt | hge
    · exact le_trans (ih (by omega)) (truncOut_len_le_succ p k)
    · have : k₁ = k + 1 := by omega
      subst this
      exact le_refl _

theorem pickGo_le (p : Payload) (limit : Nat) : ∀ k, pickGo p limit k ≤ k := by
  intro k
  induction k with
  | zero => exact le_refl _
  | succ k ih =>
    simp only [pickGo]
    by_cases hc : estTokens (truncOut p (k + 1)) ≤ limit
    · simp [hc]
    · simp [hc]
      omega

theorem pickGo_mono_limit (p : Payload) (L₁ L₂ : Nat) (hL : L₁ ≤ L₂) :
    ∀ k, pickGo p L₁ k ≤ pickGo p L₂ k := by
  intro k
  induction k with
  | zero => exact le_refl _
  | succ k ih =>
    simp only [pickGo]
    by_cases h₁ : estTokens (truncOut p (k + 1)) ≤ L₁
    · have h₂ : estTokens (truncOut p (k + 1)) ≤ L₂ := le_trans h₁ hL
      simp [h₁, h₂]
    · by_cases h₂ : estTokens (truncOut p (k + 1)) ≤ L₂
      · simp [h₁, h₂]
        exact le_trans (pickGo_le p L₁ k) (by omega)
      · simp [h₁, h₂]
        exact ih

/-- C3: for every payload and token limit, `render` (a total function — an
oversized payload is truncated, never an error) produces the truncation
marker if and only if the estimated token count of the full serialization
exceeds the limit, and its output is always the serialization of a whole-row
prefix of the payload, optionally followed by the marker stating how many
rows were omitted. -/
theorem shaper_marker_iff_whole_rows (p : Payload) (L : Nat) :
    (hasMarker (render p (some L)) = true ↔ L < estTokens (serializeRows p))
    ∧ ∃ k, k ≤ p.length ∧
        (render p (some L) = serializeRows (p.take k)
        ∨ render p (some L) = serializeRows (p.take k) ++ markerStr (p.length - k)) := by
  constructor
  · by_cases hfit : estTokens (serializeRows p) ≤ L
    · simp [render, hfit, hasMarker_serializeRows p]
    · simp only [render, hfit, if_false, truncOut]
      simp [hasMarker_append_marker]
      omega
  · by_cases hfit : estTokens (serializeRows p) ≤ L
    · exact ⟨p.length, le_refl _, Or.inl (by simp [render, hfit])⟩
    · refine ⟨pickK p L, ?_, Or.inr ?_⟩
      · exact le_trans (pickGo_le p L (p.length - 1)) (Nat.sub_le _ _)
      · simp [render, hfit, truncOut]

/-- C4 counterexample: for the one-row payload whose row has no columns,
lowering the token limit from 5 to 0 makes the rendered output strictly
longer (4 characters of full output versus the marker-bearing truncated
output), so "decreasing token_limit never increases the rendered output
length" fails as a universal statement. -/
theorem shaper_monotonicity_cex :
    (0 : Nat) ≤ 5 ∧ (render [[]] (some 5)).length < (render [[]] (some 0)).length := by
  decide

/-- C4 amended: the rendered length is monotone in the token limit whenever
the two limits are on the same side of the truncation threshold (both at
least the full estimate, or both below it); and the token estimator is
monotone in input length — a longer serialized text never receives a
smaller estimate.  (The unrestricted claim fails when the smaller limit
forces truncation whose marker is longer than the rows it saves; see the
counterexample.) -/
theorem shaper_monotonicity_amended :
    (∀ (p : Payload) (L₁ L₂ : Nat), L₁ ≤ L₂ →
        (estTokens (serializeRows p) ≤ L₁ ∨ L₂ < estTokens (serializeRows p)) →
        (render p (some L₁)).length ≤ (render p (some L₂)).length)
    ∧ (∀ s t : List Char, s.length ≤ t.length → estTokens s ≤ estTokens t) := by
  constructor
  · intro p L₁ L₂ hL hreg
    rcases hreg with hfit | htr
    · have hfit₂ : estTokens (serializeRows p) ≤ L₂ := le_trans hfit hL
      simp [render, hfit, hfit₂]
    · have h₁ : ¬ estTokens (serializeRows p) ≤ L₁ := by omega
      have h₂ : ¬ estTokens (serializeRows p) ≤ L₂ := by omega
      simp only [render, h₁, h₂, if_false]
      exact truncOut_len_mono p _ _ (pickGo_mono_limit p L₁ L₂ hL (p.length - 1))
  · intro s t h
    exact Nat.div_le_div_right (by omega)

/-- Closed instance of the amended C4 at the empty payload with both limits
zero (both in the truncation regime) and at two concrete texts. -/
theorem shaper_monotonicity_amended_witness :
    (render [] (some 0)).length ≤ (render [] (some 0)).length
    ∧ estTokens (nm "ab") ≤ estTokens (nm "abcd") := by
  have h := shaper_monotonicity_amended
  exact ⟨h.1 [] 0 0 (le_refl 0) (Or.inr (by decide)), h.2 (nm "ab") (nm "abcd") (by decide)⟩

/-! ## Connection Manager

Modelled from the spec (section 4.1): a lazily constructed, cached handle.
The state records the cached handle with its observed status, a counter of
fresh identifiers (so rebuilt handles are new objects), and how many
liveness checks were performed (a check happens exactly when a handle is
constructed). -/

/-- Observed status of the cached handle. -/
inductive HStatus
  | live
  | broken
deriving DecidableEq

/-- Connection Manager state: the cached handle (if any) with its status,
the next fresh handle identifier, and the liveness-check counter. -/
structure ConnState where
  cached : Option (Nat × HStatus)
  nextId : Nat
  checks : Nat
deriving DecidableEq

/-- Modelled from the spec: `acquire()`.  A cached live handle is returned
unchanged with no liveness re-check; with no handle, or with a handle a
prior operation observed as broken, a fresh handle is constructed (one
liveness check) and cached. -/
def acquire (s : ConnState) : Nat × ConnState :=
  match s.cached with
  | some (h, HStatus.live) => (h, s)
  | some (_, HStatus.broken) =>
    (s.nextId, ⟨some (s.nextId, HStatus.live), s.nextId + 1, s.checks + 1⟩)
  | none =>
    (s.nextId, ⟨some (s.nextId, HStatus.live), s.nextId + 1, s.checks + 1⟩)

/-- Modelled from the spec: a connection-level failure observed by an
operation marks the cached handle broken. -/
def invalidate (s : ConnState) : ConnState :=
  ⟨s.cached.map (fun p => (p.1, HStatus.broken)), s.nextId, s.checks⟩

/-- Number of live handles held by the server state. -/
def liveHandles (s : ConnState) : Nat :=
  match s.cached with
  | some (_, HStatus.live) => 1
  | _ => 0

/-- Identifier freshness: every cached handle was drawn below `nextId`. -/
def FreshIds (s : ConnState) : Prop :=
  ∀ h st, s.cached = some (h, st) → h < s.nextId

/-- C5: at most one live handle exists per server instance; `acquire` is
idempotent — after any call, a further `acquire` returns the very same
handle and leaves the state (including the liveness-check counter)
untouched; a cached live handle is returned without any state change; and
when a prior operation observed the handle as broken, the next `acquire`
constructs a fresh handle, distinct from the broken one. -/
theorem connection_manager_invariant (s : ConnState) (h : Nat) :
    liveHandles s ≤ 1
    ∧ acquire (acquire s).2 = acquire s
    ∧ (s.cached = some (h, HStatus.live) → acquire s = (h, s))
    ∧ (FreshIds s → s.cached = some (h, HStatus.broken) →
        (acquire s).1 ≠ h ∧ (acquire s).2.cached = some ((acquire s).1, HStatus.live)) := by
  refine ⟨?_, ?_, ?_, ?_⟩
  · cases hc : s.cached with
    | none => simp [liveHandles, hc]
    | some p =>
      obtain ⟨hid, st⟩ := p
      cases st <;> simp [liveHandles, hc]
  · cases hc : s.cached with
    | none => simp [acquire, hc]
    | some p =>
      obtain ⟨hid, st⟩ := p
      cases st <;> simp [acquire, hc]
  · intro hc
    simp [acquire, hc]
  · intro hfresh hc
    have hlt := hfresh h HStatus.broken hc
    constructor
    · simp [acquire, hc]
      omega
    · simp [acquire, hc]

/-- Closed instance of C5: from a state whose only handle was observed
broken, `acquire` returns a fresh handle and a second `acquire` changes
nothing. -/
theorem connection_manager_invariant_witness :
    (acquire ⟨some (0, HStatus.broken), 1, 1⟩).1 ≠ 0
    ∧ acquire (acquire ⟨some (0, HStatus.broken), 1, 1⟩).2
        = acquire ⟨some (0, HStatus.broken), 1, 1⟩ := by
  have h := connection_manager_invariant ⟨some (0, HStatus.broken), 1, 1⟩ 0
  refine ⟨(h.2.2.2 ?_ rfl).1, h.2.1⟩
  intro hid st heq
  injection heq with h1
  injection h1 with h2 h3
  rw [← h2]
  decide

/-! ## Schema Sampler

Modelled from the spec (section 4.3): bounded structural sampling.  The
graph is the backend's data; for each node label (and relationship type)
present, at most `sample_size` instances are examined, and the summary
records the union of observed property names with the set of observed
value types, plus endpoint label pairs for relationships. -/

/-- A node instance of the graph. -/
structure GNode where
  label : CName
  props : List (CName × PVal)
deriving DecidableEq

/-- A relationship instance of the graph. -/
structure GRel where
  rtype : CName
  startLabel : CName
  endLabel : CName
  props : List (CName × PVal)
deriving DecidableEq

/-- The backend graph. -/
structure Graph where
  nodes : List GNode
  rels : List GRel
deriving DecidableEq

/-- Apparent primitive type of a value. -/
def pType : PVal → CName
  | PVal.int _ => nm "INTEGER"
  | PVal.str _ => nm "STRING"
  | PVal.bool _ => nm "BOOLEAN"
  | PVal.null => nm "NULL"

/-- Distinct node labels present in the graph. -/
def nodeLabels (g : Graph) : List CName := (g.nodes.map GNode.label).dedup

/-- Distinct relationship types present in the graph. -/
def relTypes (g : Graph) : List CName := (g.rels.map GRel.rtype).dedup

/-- Modelled from the spec: the bounded per-label sample — at most
`size` instances of the label are examined, independent of graph size. -/
def sampledNodes (g : Graph) (size : Nat) (label : CName) : List GNode :=
  (g.nodes.filter (fun n => n.label == label)).take size

/-- Modelled from the spec: the bounded per-type relationship sample. -/
def sampledRels (g : Graph) (size : Nat) (rtype : CName) : List GRel :=
  (g.rels.filter (fun r => r.rtype == rtype)).take size

/-- Property lookup inside one instance. -/
def lookupProp (k : CName) : List (CName × PVal) → Option PVal
  | [] => none
  | (k', v) :: t => if k = k' then some v else lookupProp k t

/-- Modelled from the spec: property inference over a sample — the union of
property names observed, each with the set of types observed across the
sample (kept as a set when instances disagree). -/
def inferProps (rows : List (List (CName × PVal))) : List (CName × List CName) :=
  ((rows.map (fun r => r.map Prod.fst)).flatten.dedup).map
    (fun k => (k, ((rows.filterMap (lookupProp k)).map pType).dedup))

/-- One entry of the Schema Summary. -/
structure EntityInfo where
  isRel : Bool
  props : List (CName × List CName)
  pairs : List (CName × CName)
deriving DecidableEq

/-- Modelled from the spec: `sample(sample_size) -> Schema Summary`, built
from the bounded samples only — per node label the inferred properties, per
relationship type additionally the distinct (start-label, end-label) pairs
observed in the sample. -/
def sampleSchema (g : Graph) (size : Nat) : List (CName × EntityInfo) :=
  (nodeLabels g).map
    (fun L => (L, ⟨false, inferProps ((sampledNodes g size L).map GNode.props), []⟩))
  ++ (relTypes g).map
    (fun T =>
      (T, ⟨true, inferProps ((sampledRels g size T).map GRel.props),
           ((sampledRels g size T).map (fun r => (r.startLabel, r.endLabel))).dedup⟩))

/-- Total number of instances examined by one `sampleSchema` call. -/
def examinedCost (g : Graph) (size : Nat) : Nat :=
  ((nodeLabels g).map (fun L => (sampledNodes g size L).length)).sum
  + ((relTypes g).map (fun T => (sampledRels g size T).length)).sum

/-- C6: the sampler examines at most `size` instances per node label and per
relationship type, whatever the graph, and the total number of examined
instances is bounded by (distinct labels + distinct relationship types)
times `size` — independent of the total graph size. -/
theorem sampler_bounded_cost (g : Graph) (size : Nat) :
    (∀ L : CName, (sampledNodes g size L).length ≤ size
        ∧ (sampledRels g size L).length ≤ size)
    ∧ examinedCost g size ≤ ((nodeLabels g).length + (relTypes g).length) * size := by
  constructor
  · intro L
    exact ⟨List.length_take_le _ _, List.length_take_le _ _⟩
  · have h1 : ((nodeLabels g).map (fun L => (sampledNodes g size L).length)).sum
        ≤ (nodeLabels g).length * size := by
      have hb : ∀ x ∈ (nodeLabels g).map (fun L => (sampledNodes g size L).length),
          x ≤ size := by
        intro x hx
        obtain ⟨L, _, rfl⟩ := List.mem_map.mp hx
        exact List.length_take_le _ _
      have := List.sum_le_card_nsmul _ size hb
      simpa [smul_eq_mul] using this
    have h2 : ((relTypes g).map (fun T => (sampledRels g size T).length)).sum
        ≤ (relTypes g).length * size := by
      have hb : ∀ x ∈ (relTypes g).map (fun T => (sampledRels g size T).length),
          x ≤ size := by
        intro x hx
        obtain ⟨T, _, rfl⟩ := List.mem_map.mp hx
        exact List.length_take_le _ _
      have := List.sum_le_card_nsmul _ size hb
      simpa [smul_eq_mul] using this
    calc examinedCost g size
        ≤ (nodeLabels g).length * size + (relTypes g).length * size :=
          Nat.add_le_add h1 h2
      _ = ((nodeLabels g).length + (relTypes g).length) * size := by ring

/-- C7: on a database with no labels and no relationship types, the sampler
succeeds with an empty Schema Summary — an empty mapping, not an error. -/
theorem sampler_empty_schema (g : Graph) (size : Nat)
    (hn : g.nodes = []) (hr : g.rels = []) : sampleSchema g size = [] := by
  simp [sampleSchema, nodeLabels, relTypes, hn, hr]

/-- Closed instance of C7 (spec scenario B): sample size 100 against the
empty database yields the empty summary. -/
theorem sampler_empty_schema_witness : sampleSchema ⟨[], []⟩ 100 = [] :=
  sampler_empty_schema ⟨[], []⟩ 100 rfl rfl

/-! ## Configuration and startup (embedded from production_server.py)

`production_server.py` reads configuration from the environment (lines
21-35), validates the Neo4j credentials (lines 46-51, `sys.exit(1)` when
any of URI/username/password is unset or empty — Python treats `None` and
the empty string as falsy), and only then creates the MCP server (line 58).
The environment is a partial map from variable names to strings; Python's
`int()` is modelled as a partial parse (optional surrounding whitespace, an
optional sign, then a nonempty digit string; underscore separators are not
modelled), and `str.lower()` as per-character ASCII lowering, which agrees
with Python on the ASCII arguments that occur here. -/

/-- A process environment: `os.getenv` on variable names. -/
abbrev Env : Type := String → Option String

/-- Embedded from the source: `os.getenv(key, default)`. -/
def getEnvD (env : Env) (k d : String) : String := (env k).getD d

/-- Whitespace trimming as Python `int()` performs on its string argument. -/
def pyTrim (l : List Char) : List Char :=
  ((l.dropWhile Char.isWhitespace).reverse.dropWhile Char.isWhitespace).reverse

/-- Decimal digit value of a character, when it is a digit. -/
def digitVal (c : Char) : Option Nat :=
  if c.isDigit then some (c.toNat - 48) else none

/-- Parse a nonempty all-digit string. -/
def parseDigits : List Char → Option Nat
  | [] => none
  | l => l.foldl (fun acc c => acc.bind (fun a => (digitVal c).map (fun d => a * 10 + d)))
      (some 0)

/-- Embedded from the source: Python `int(s)` on a string — `none` models the
`ValueError` that ends the process. -/
def pyInt (s : String) : Option Int :=
  match pyTrim s.data with
  | '+' :: rest => (parseDigits rest).map (fun n => (n : Int))
  | '-' :: rest => (parseDigits rest).map (fun n => -(n : Int))
  | rest => (parseDigits rest).map (fun n => (n : Int))

/-- Embedded from the source: Python `str.lower()` (ASCII fragment),
character by character. -/
def pyLower (s : String) : String := String.mk (s.data.map Char.toLower)

/-- Embedded from `production_server.py` line 30:
`os.getenv("NEO4J_READ_ONLY", "false").lower() == "true"`. -/
def readOnlyOf (env : Env) : Bool :=
  pyLower (getEnvD env "NEO4J_READ_ONLY" "false") == "true"

/-- The server configuration assembled by `production_server.py`
lines 26-35 and passed to `create_mcp_server`. -/
structure ServerConfig where
  database : String
  port : Int
  nspace : String
  readTimeout : Int
  readOnly : Bool
  schemaSampleSize : Int
  tokenLimit : Option Int
deriving DecidableEq

/-- Embedded from `production_server.py` lines 26-35: the configuration
reads, in source order for the fallible `int()` conversions; `none` models a
`ValueError` crash before the credential check runs. -/
def readConfig (env : Env) : Option ServerConfig :=
  (pyInt (getEnvD env "PORT" (getEnvD env "DATABRICKS_APP_PORT" "8000"))).bind fun port =>
  (pyInt (getEnvD env "NEO4J_READ_TIMEOUT" "30")).bind fun rt =>
  (pyInt (getEnvD env "NEO4J_SCHEMA_SAMPLE_SIZE" "1000")).bind fun ss =>
  (match env "NEO4J_RESPONSE_TOKEN_LIMIT" with
   | none => some none
   | some s => if s == "" then some none else (pyInt s).map some).bind fun tl =>
  some ⟨getEnvD env "NEO4J_DATABASE" "neo4j", port, getEnvD env "NEO4J_NAMESPACE" "",
        rt, readOnlyOf env, ss, tl⟩

/-- Outcome of running `production_server.py` up to server creation. -/
inductive StartupOutcome
  | crashed
  | exited (code : Nat)
  | running (cfg : ServerConfig)
deriving DecidableEq

/-- Python falsiness of an optional string: `None` or the empty string. -/
def falsyStr : Option String → Bool
  | none => true
  | some s => s == ""

/-- Embedded from `production_server.py`: configuration parsing (lines
26-35), then the credential validation (lines 46-51) which exits with
status 1 before `create_mcp_server` (line 58) when any credential is unset
or empty. -/
def startup (env : Env) : StartupOutcome :=
  match readConfig env with
  | none => StartupOutcome.crashed
  | some cfg =>
    if falsyStr (env "NEO4J_URI") || falsyStr (env "NEO4J_USERNAME")
        || falsyStr (env "NEO4J_PASSWORD")
    then StartupOutcome.exited 1
    else StartupOutcome.running cfg

/-- Exit status of an outcome: CPython ends the interpreter with status 1 on
an uncaught exception, and `sys.exit(1)` exits with 1; a running server has
not exited. -/
def exitStatus : StartupOutcome → Option Nat
  | StartupOutcome.crashed => some 1
  | StartupOutcome.exited c => some c
  | StartupOutcome.running _ => none

/-- The all-unset environment. -/
def envEmpty : Env := fun _ => none

/-- An environment defining exactly `NEO4J_READ_ONLY`. -/
def roEnv (v : String) : Env :=
  fun k => if k = "NEO4J_READ_ONLY" then some v else none

/-- C8: when the corresponding environment variables are unset, any
configuration the bootstrap constructs carries schema sample size 1000,
no response token limit (unlimited), a 30 second read timeout, the empty
namespace, and a writable (non read-only) server. -/
theorem config_defaults (env : Env) (cfg : ServerConfig)
    (h1 : env "NEO4J_SCHEMA_SAMPLE_SIZE" = none)
    (h2 : env "NEO4J_RESPONSE_TOKEN_LIMIT" = none)
    (h3 : env "NEO4J_READ_TIMEOUT" = none)
    (h4 : env "NEO4J_NAMESPACE" = none)
    (h5 : env "NEO4J_READ_ONLY" = none)
    (hc : readConfig env = some cfg) :
    cfg.schemaSampleSize = 1000 ∧ cfg.tokenLimit = none ∧ cfg.readTimeout = 30
    ∧ cfg.nspace = "" ∧ cfg.readOnly = false := by
  have hro : readOnlyOf env = false := by
    unfold readOnlyOf getEnvD
    rw [h5]
    decide
  unfold readConfig getEnvD at hc
  rw [h1, h2, h3, h4, hro] at hc
  rw [show ((none : Option String).getD "30") = "30" from rfl,
    show ((none : Option String).getD "1000") = "1000" from rfl,
    show ((none : Option String).getD "") = "" from rfl] at hc
  rw [show pyInt "30" = some 30 from by decide,
    show pyInt "1000" = some 1000 from by decide] at hc
  simp only [Option.some_bind] at hc
  rw [Option.bind_eq_some] at hc
  obtain ⟨port, hp, hc⟩ := hc
  simp only [Option.some.injEq] at hc
  rw [← hc]
  exact ⟨rfl, rfl, rfl, rfl, rfl⟩

/-- Closed instance of C8: the all-unset environment parses to exactly the
default configuration. -/
theorem config_defaults_witness :
    readConfig envEmpty = some ⟨"neo4j", 8000, "", 30, false, 1000, none⟩
    ∧ (1000 : Int) = 1000 ∧ (none : Option Int) = none ∧ (30 : Int) = 30
    ∧ ("" : String) = "" ∧ false = false := by
  have h := config_defaults envEmpty ⟨"neo4j", 8000, "", 30, false, 1000, none⟩
    rfl rfl rfl rfl rfl (by decide)
  exact ⟨by decide, h.1, h.2.1, h.2.2.1, h.2.2.2.1, h.2.2.2.2⟩

/-- C9: whenever any of NEO4J_URI, NEO4J_USERNAME or NEO4J_PASSWORD is unset
or empty, the bootstrap terminates at startup with exit status 1 (by
`sys.exit(1)`, or — if configuration parsing already crashed — by the
interpreter's status 1 for an uncaught exception) and never reaches MCP
server creation. -/
theorem startup_credentials_gate (env : Env)
    (h : falsyStr (env "NEO4J_URI") = true ∨ falsyStr (env "NEO4J_USERNAME") = true
        ∨ falsyStr (env "NEO4J_PASSWORD") = true) :
    exitStatus (startup env) = some 1
    ∧ ∀ cfg : ServerConfig, startup env ≠ StartupOutcome.running cfg := by
  unfold startup
  cases hc : readConfig env with
  | none => exact ⟨rfl, fun cfg => by simp⟩
  | some cfg0 =>
    have hcond : (falsyStr (env "NEO4J_URI") || falsyStr (env "NEO4J_USERNAME")
        || falsyStr (env "NEO4J_PASSWORD")) = true := by
      rcases h with h | h | h <;> simp [h]
    constructor
    · simp [hcond, exitStatus]
    · intro cfg
      simp [hcond]

/-- Closed instance of C9: with every variable unset the process exits with
status 1 and the outcome is not a running server. -/
theorem startup_credentials_gate_witness :
    exitStatus (startup envEmpty) = some 1 :=
  (startup_credentials_gate envEmpty (Or.inl rfl)).1

/-- C10: the read-only flag is enabled exactly when the lowercased value of
NEO4J_READ_ONLY equals the string "true"; a set value whose lowercasing is
not "true" leaves the server writable, as do the unset variable and the
values "1" and "yes", while "TRUE" enables it. -/
theorem read_only_flag_parsing :
    (∀ env : Env, readOnlyOf env = true ↔
        pyLower ((env "NEO4J_READ_ONLY").getD "false") = "true")
    ∧ (∀ (env : Env) (s : String), env "NEO4J_READ_ONLY" = some s →
        pyLower s ≠ "true" → readOnlyOf env = false)
    ∧ readOnlyOf envEmpty = false
    ∧ readOnlyOf (roEnv "1") = false
    ∧ readOnlyOf (roEnv "yes") = false
    ∧ readOnlyOf (roEnv "TRUE") = true := by
  refine ⟨?_, ?_, by decide, by decide, by decide, by decide⟩
  · intro env
    unfold readOnlyOf getEnvD
    exact beq_iff_eq
  · intro env s hv hne
    unfold readOnlyOf getEnvD
    rw [hv]
    exact beq_eq_false_iff_ne.mpr hne

/-- Closed instance of C10: a set value other than (lowercased) "true"
leaves the server writable. -/
theorem read_only_flag_parsing_witness :
    readOnlyOf (roEnv "off") = false :=
  read_only_flag_parsing.2.1 (roEnv "off") "off" rfl (by decide)
